import Mathlib

/-!
Verification development for the Hardwave Bridge analyser plugin
(`src/protocol.rs`, `src/fft.rs`, `src/websocket.rs`, `src/lib.rs`).

Modelling conventions:
* Machine integers (`u8`, `u32`, `u64`) are `Nat` with explicit range bounds
  where overflow or serialization width matters.
* `f32` values that only travel through the codec are modelled by their
  IEEE-754 bit patterns (a `Nat` below `2^32`): bincode writes exactly those
  four bytes little-endian, so the codec is bit-faithful in this view.
  The literal `-100.0f32` has bit pattern `0xC2C80000`; `0.0f32` is `0`.
* The DSP path (`fft.rs`) is modelled over `ℚ`.  Calls into external crates
  and float transcendentals (`rustfft`'s forward FFT plus complex `norm`,
  `f32::log10`, `2.0f32.powf(1.0/6.0)`) are abstracted as parameters, since
  they are library code outside this repository; all control flow, indexing,
  clamping and the exactly-representable arithmetic of `fft.rs` itself are
  translated directly.
* Stateful loops (`websocket.rs`) become explicit state-passing functions;
  the reconnection loop is a fuel-indexed trace function where "time" is the
  loop iteration index.
-/

namespace Hardwave

/-! ## Protocol model (`src/protocol.rs`) -/

/-- Number of frequency bands in FFT analysis (`NUM_BANDS` in `protocol.rs`). -/
def NUM_BANDS : Nat := 64

/-- Packet type identifier for FFT packets (`PACKET_TYPE_FFT`). -/
def PACKET_TYPE_FFT : Nat := 0

/-- Packet type identifier for heartbeat packets (`PACKET_TYPE_HEARTBEAT`). -/
def PACKET_TYPE_HEARTBEAT : Nat := 1

/-- IEEE-754 single-precision bit pattern of the literal `-100.0f32`
(sign 1, exponent field 133, mantissa `0x480000`): `0xC2C80000`. -/
def f32Neg100 : Nat := 0xC2C80000

/-- IEEE-754 single-precision bit pattern of the literal `0.0f32`. -/
def f32Zero : Nat := 0

/-- The wire record of `protocol.rs` (`struct AudioPacket`).  `f32` fields are
carried as their 32-bit patterns; the band arrays `[f32; NUM_BANDS]` are lists
whose well-formed length is `NUM_BANDS` (see `AudioPacket.Wf`). -/
structure AudioPacket where
  packet_type : Nat
  sample_rate : Nat
  timestamp_ms : Nat
  left_bands : List Nat
  right_bands : List Nat
  left_peak : Nat
  right_peak : Nat
  left_rms : Nat
  right_rms : Nat
deriving DecidableEq, Repr

/-- Well-formedness of a packet value: every field fits its Rust type
(`u8`, `u32`, `u64`, `[f32; 64]`, four `f32` scalars). In Rust this holds by
typing; in the `Nat`/`List` model it is an explicit predicate. -/
def AudioPacket.Wf (p : AudioPacket) : Prop :=
  p.packet_type < 2 ^ 8 ∧ p.sample_rate < 2 ^ 32 ∧ p.timestamp_ms < 2 ^ 64 ∧
  p.left_bands.length = NUM_BANDS ∧ p.right_bands.length = NUM_BANDS ∧
  (∀ v ∈ p.left_bands, v < 2 ^ 32) ∧ (∀ v ∈ p.right_bands, v < 2 ^ 32) ∧
  p.left_peak < 2 ^ 32 ∧ p.right_peak < 2 ^ 32 ∧
  p.left_rms < 2 ^ 32 ∧ p.right_rms < 2 ^ 32

instance (p : AudioPacket) : Decidable p.Wf := by
  unfold AudioPacket.Wf; infer_instance

/-- `AudioPacket::new_fft` from `protocol.rs`. -/
def AudioPacket.new_fft (sample_rate timestamp_ms : Nat)
    (left_bands right_bands : List Nat)
    (left_peak right_peak left_rms right_rms : Nat) : AudioPacket :=
  { packet_type := PACKET_TYPE_FFT
    sample_rate := sample_rate
    timestamp_ms := timestamp_ms
    left_bands := left_bands
    right_bands := right_bands
    left_peak := left_peak
    right_peak := right_peak
    left_rms := left_rms
    right_rms := right_rms }

/-- `AudioPacket::new_heartbeat` from `protocol.rs`: zero-filled band arrays
(`[0.0; NUM_BANDS]`), peaks `-100.0`, RMS `0.0`. -/
def AudioPacket.new_heartbeat (sample_rate timestamp_ms : Nat) : AudioPacket :=
  { packet_type := PACKET_TYPE_HEARTBEAT
    sample_rate := sample_rate
    timestamp_ms := timestamp_ms
    left_bands := List.replicate NUM_BANDS f32Zero
    right_bands := List.replicate NUM_BANDS f32Zero
    left_peak := f32Neg100
    right_peak := f32Neg100
    left_rms := f32Zero
    right_rms := f32Zero }

/-! ### bincode layout

`to_bytes`/`from_bytes` call `bincode::serialize`/`bincode::deserialize`
(bincode 1.x free functions): fixed-width integers, little-endian, no length
prefix for the `BigArray`-encoded `[f32; 64]` fields (serde serializes a fixed
array as a tuple of 64 consecutive `f32`), and trailing input bytes are
allowed by the deserializer.  Total record size: 1 + 4 + 8 + 256 + 256 + 16
= 541 bytes. -/

/-- Little-endian bytes of a `u8`. -/
def u8Bytes (n : Nat) : List Nat := [n % 256]

/-- Little-endian bytes of a `u32` (also used for an `f32` bit pattern). -/
def u32Bytes (n : Nat) : List Nat :=
  [n % 256, n / 2 ^ 8 % 256, n / 2 ^ 16 % 256, n / 2 ^ 24 % 256]

/-- Little-endian bytes of a `u64`. -/
def u64Bytes (n : Nat) : List Nat :=
  [n % 256, n / 2 ^ 8 % 256, n / 2 ^ 16 % 256, n / 2 ^ 24 % 256,
   n / 2 ^ 32 % 256, n / 2 ^ 40 % 256, n / 2 ^ 48 % 256, n / 2 ^ 56 % 256]

/-- Concatenated 4-byte encodings of a list of `f32` bit patterns
(the serde `BigArray` tuple encoding under bincode). -/
def bytesOfF32s (vs : List Nat) : List Nat :=
  vs.foldr (fun v acc => u32Bytes v ++ acc) []

/-- Value of a little-endian byte list. -/
def leVal (bs : List Nat) : Nat :=
  bs.foldr (fun b acc => b + 256 * acc) 0

/-- The bincode byte image of a packet: fields in declaration order with
fixed-width little-endian encodings. -/
def encodeBytes (p : AudioPacket) : List Nat :=
  u8Bytes p.packet_type ++ (u32Bytes p.sample_rate ++ (u64Bytes p.timestamp_ms ++
  (bytesOfF32s p.left_bands ++ (bytesOfF32s p.right_bands ++
  (u32Bytes p.left_peak ++ (u32Bytes p.right_peak ++
  (u32Bytes p.left_rms ++ u32Bytes p.right_rms)))))))

/-- `bincode::serialize(self)` inside `AudioPacket::to_bytes`: a `Result`
value.  For this record type every field has a fixed width, so serialization
always succeeds with the fixed layout. -/
def bincodeSerialize (p : AudioPacket) : Except String (List Nat) :=
  .ok (encodeBytes p)

/-- `AudioPacket::to_bytes` from `protocol.rs`:
`bincode::serialize(self).unwrap_or_default()` — the error case degrades to
the empty byte sequence instead of panicking. -/
def AudioPacket.to_bytes (p : AudioPacket) : List Nat :=
  match bincodeSerialize p with
  | .ok bs => bs
  | .error _ => []

/-- Reads `n` consecutive little-endian `f32` bit patterns (4 bytes each)
starting at the front of `d`. -/
def f32sOf (d : List Nat) (n : Nat) : List Nat :=
  (List.range n).map (fun i => leVal ((d.drop (4 * i)).take 4))

/-- `AudioPacket::from_bytes` from `protocol.rs`
(`bincode::deserialize(data)`): reads the fixed 541-byte layout from the
front of the input (bincode's legacy config allows trailing bytes) and fails
when the input is too short. -/
def AudioPacket.from_bytes (data : List Nat) : Except String AudioPacket :=
  if 541 ≤ data.length then
    .ok { packet_type := leVal (data.take 1)
          sample_rate := leVal ((data.drop 1).take 4)
          timestamp_ms := leVal ((data.drop 5).take 8)
          left_bands := f32sOf (data.drop 13) NUM_BANDS
          right_bands := f32sOf (data.drop 269) NUM_BANDS
          left_peak := leVal ((data.drop 525).take 4)
          right_peak := leVal ((data.drop 529).take 4)
          left_rms := leVal ((data.drop 533).take 4)
          right_rms := leVal ((data.drop 537).take 4) }
  else .error "io error: unexpected end of input"

/-! ### Codec lemmas -/

lemma drop_pref (xs ys : List Nat) (k : Nat) (h : xs.length = k) :
    (xs ++ ys).drop k = ys := by
  subst h; exact List.drop_left xs ys

lemma take_pref (xs ys : List Nat) (k : Nat) (h : xs.length = k) :
    (xs ++ ys).take k = xs := by
  subst h; exact List.take_left xs ys

lemma drop_add (l : List Nat) (m n : Nat) : l.drop (m + n) = (l.drop m).drop n := by
  rw [List.drop_drop, Nat.add_comm]

lemma leVal_u32Bytes (n : Nat) (h : n < 2 ^ 32) : leVal (u32Bytes n) = n := by
  simp only [leVal, u32Bytes, List.foldr]
  omega

lemma leVal_u64Bytes (n : Nat) (h : n < 2 ^ 64) : leVal (u64Bytes n) = n := by
  simp only [leVal, u64Bytes, List.foldr]
  omega

lemma u32Bytes_length (n : Nat) : (u32Bytes n).length = 4 := rfl

lemma bytesOfF32s_nil : bytesOfF32s [] = [] := rfl

lemma bytesOfF32s_cons (v : Nat) (vs : List Nat) :
    bytesOfF32s (v :: vs) = u32Bytes v ++ bytesOfF32s vs := rfl

lemma bytesOfF32s_length (vs : List Nat) :
    (bytesOfF32s vs).length = 4 * vs.length := by
  induction vs with
  | nil => rfl
  | cons v tl ih =>
      simp [bytesOfF32s_cons, List.length_append, u32Bytes_length, ih]
      ring

lemma drop_bytesOfF32s (i : Nat) :
    ∀ (vs rest : List Nat), i ≤ vs.length →
      (bytesOfF32s vs ++ rest).drop (4 * i) = bytesOfF32s (vs.drop i) ++ rest := by
  induction i with
  | zero => intro vs rest _; simp
  | succ j ih =>
      intro vs rest h
      cases vs with
      | nil => simp at h
      | cons v tl =>
          have hstep : 4 * (j + 1) = 4 + 4 * j := by ring
          rw [hstep, drop_add, bytesOfF32s_cons, List.append_assoc,
            drop_pref (u32Bytes v) _ 4 (u32Bytes_length v)]
          simpa using ih tl rest (by simpa using h)

lemma f32sOf_bytesOfF32s (vs rest : List Nat) (hv : ∀ v ∈ vs, v < 2 ^ 32) :
    f32sOf (bytesOfF32s vs ++ rest) vs.length = vs := by
  apply List.ext_getElem
  · simp [f32sOf]
  · intro i h1 h2
    have hi : i < vs.length := h2
    simp only [f32sOf, List.getElem_map, List.getElem_range]
    rw [drop_bytesOfF32s i vs rest (Nat.le_of_lt hi)]
    rw [List.drop_eq_getElem_cons hi, bytesOfF32s_cons, List.append_assoc,
      take_pref _ _ 4 (u32Bytes_length _)]
    exact leVal_u32Bytes _ (hv _ (vs.getElem_mem hi))

/-- C1: decoding the byte sequence produced by encoding a well-formed packet
recovers the packet exactly: `AudioPacket::from_bytes(p.to_bytes()) == Ok(p)`. -/
theorem c1_decode_encode_round_trip (p : AudioPacket) (hp : p.Wf) :
    AudioPacket.from_bytes p.to_bytes = Except.ok p := by
  obtain ⟨pt, sr, ts, lb, rb, lp, rp, lr, rr⟩ := p
  obtain ⟨hpt, hsr, hts, hlb, hrb, hlv, hrv, hlp, hrp, hlr, hrr⟩ := hp
  dsimp only at hpt hsr hts hlb hrb hlv hrv hlp hrp hlr hrr
  have hlb64 : lb.length = 64 := hlb
  have hrb64 : rb.length = 64 := hrb
  have hbytes : AudioPacket.to_bytes ⟨pt, sr, ts, lb, rb, lp, rp, lr, rr⟩ =
      encodeBytes ⟨pt, sr, ts, lb, rb, lp, rp, lr, rr⟩ := rfl
  have d13 : (encodeBytes ⟨pt, sr, ts, lb, rb, lp, rp, lr, rr⟩).drop 13 =
      bytesOfF32s lb ++ (bytesOfF32s rb ++ (u32Bytes lp ++ (u32Bytes rp ++
        (u32Bytes lr ++ u32Bytes rr)))) := rfl
  have d269 : (encodeBytes ⟨pt, sr, ts, lb, rb, lp, rp, lr, rr⟩).drop 269 =
      bytesOfF32s rb ++ (u32Bytes lp ++ (u32Bytes rp ++
        (u32Bytes lr ++ u32Bytes rr))) := by
    rw [show (269 : Nat) = 13 + 256 from rfl, drop_add, d13,
      show (256 : Nat) = 4 * 64 from rfl,
      drop_bytesOfF32s 64 lb _ (le_of_eq hlb64.symm),
      show lb.drop 64 = [] from by rw [← hlb64]; exact List.drop_length lb]
    rfl
  have d525 : (encodeBytes ⟨pt, sr, ts, lb, rb, lp, rp, lr, rr⟩).drop 525 =
      u32Bytes lp ++ (u32Bytes rp ++ (u32Bytes lr ++ u32Bytes rr)) := by
    rw [show (525 : Nat) = 269 + 256 from rfl, drop_add, d269,
      show (256 : Nat) = 4 * 64 from rfl,
      drop_bytesOfF32s 64 rb _ (le_of_eq hrb64.symm),
      show rb.drop 64 = [] from by rw [← hrb64]; exact List.drop_length rb]
    rfl
  have d529 : (encodeBytes ⟨pt, sr, ts, lb, rb, lp, rp, lr, rr⟩).drop 529 =
      u32Bytes rp ++ (u32Bytes lr ++ u32Bytes rr) := by
    rw [show (529 : Nat) = 525 + 4 from rfl, drop_add, d525,
      drop_pref _ _ 4 (u32Bytes_length lp)]
  have d533 : (encodeBytes ⟨pt, sr, ts, lb, rb, lp, rp, lr, rr⟩).drop 533 =
      u32Bytes lr ++ u32Bytes rr := by
    rw [show (533 : Nat) = 529 + 4 from rfl, drop_add, d529,
      drop_pref _ _ 4 (u32Bytes_length rp)]
  have d537 : (encodeBytes ⟨pt, sr, ts, lb, rb, lp, rp, lr, rr⟩).drop 537 =
      u32Bytes rr := by
    rw [show (537 : Nat) = 533 + 4 from rfl, drop_add, d533,
      drop_pref _ _ 4 (u32Bytes_length lr)]
  have hlen : (encodeBytes ⟨pt, sr, ts, lb, rb, lp, rp, lr, rr⟩).length = 541 := by
    simp [encodeBytes, u8Bytes, u32Bytes, u64Bytes, bytesOfF32s_length,
      hlb64, hrb64]
  have epk : leVal ((encodeBytes ⟨pt, sr, ts, lb, rb, lp, rp, lr, rr⟩).take 1) = pt := by
    rw [show (encodeBytes ⟨pt, sr, ts, lb, rb, lp, rp, lr, rr⟩).take 1 =
      u8Bytes pt from rfl]
    simp only [leVal, u8Bytes, List.foldr]
    omega
  have esr : leVal (((encodeBytes ⟨pt, sr, ts, lb, rb, lp, rp, lr, rr⟩).drop 1).take 4) = sr := by
    rw [show ((encodeBytes ⟨pt, sr, ts, lb, rb, lp, rp, lr, rr⟩).drop 1).take 4 =
      u32Bytes sr from rfl]
    exact leVal_u32Bytes sr hsr
  have ets : leVal (((encodeBytes ⟨pt, sr, ts, lb, rb, lp, rp, lr, rr⟩).drop 5).take 8) = ts := by
    rw [show ((encodeBytes ⟨pt, sr, ts, lb, rb, lp, rp, lr, rr⟩).drop 5).take 8 =
      u64Bytes ts from rfl]
    exact leVal_u64Bytes ts hts
  have ebl : f32sOf ((encodeBytes ⟨pt, sr, ts, lb, rb, lp, rp, lr, rr⟩).drop 13) NUM_BANDS = lb := by
    rw [d13, ← hlb]
    exact f32sOf_bytesOfF32s lb _ hlv
  have ebr : f32sOf ((encodeBytes ⟨pt, sr, ts, lb, rb, lp, rp, lr, rr⟩).drop 269) NUM_BANDS = rb := by
    rw [d269, ← hrb]
    exact f32sOf_bytesOfF32s rb _ hrv
  have elp : leVal (((encodeBytes ⟨pt, sr, ts, lb, rb, lp, rp, lr, rr⟩).drop 525).take 4) = lp := by
    rw [d525, take_pref _ _ 4 (u32Bytes_length lp)]
    exact leVal_u32Bytes lp hlp
  have erp : leVal (((encodeBytes ⟨pt, sr, ts, lb, rb, lp, rp, lr, rr⟩).drop 529).take 4) = rp := by
    rw [d529, take_pref _ _ 4 (u32Bytes_length rp)]
    exact leVal_u32Bytes rp hrp
  have elr : leVal (((encodeBytes ⟨pt, sr, ts, lb, rb, lp, rp, lr, rr⟩).drop 533).take 4) = lr := by
    rw [d533, take_pref _ _ 4 (u32Bytes_length lr)]
    exact leVal_u32Bytes lr hlr
  have e9 : leVal (((encodeBytes ⟨pt, sr, ts, lb, rb, lp, rp, lr, rr⟩).drop 537).take 4) = rr := by
    rw [d537, show (u32Bytes rr).take 4 = u32Bytes rr from
      by simpa using take_pref (u32Bytes rr) [] 4 (u32Bytes_length rr)]
    exact leVal_u32Bytes rr hrr
  rw [hbytes]
  simp only [AudioPacket.from_bytes]
  rw [if_pos (by rw [hlen])]
  simp only [Except.ok.injEq, AudioPacket.mk.injEq]
  exact ⟨epk, esr, ets, ebl, ebr, elp, erp, elr, e9⟩

/-- Closed witness for C1 at a concrete well-formed packet. -/
theorem c1_round_trip_witness :
    (AudioPacket.new_fft 48000 12345 (List.replicate 64 3) (List.replicate 64 7)
      5 6 8 9).Wf ∧
    AudioPacket.from_bytes (AudioPacket.new_fft 48000 12345 (List.replicate 64 3)
      (List.replicate 64 7) 5 6 8 9).to_bytes =
      Except.ok (AudioPacket.new_fft 48000 12345 (List.replicate 64 3)
        (List.replicate 64 7) 5 6 8 9) :=
  ⟨by decide, c1_decode_encode_round_trip _ (by decide)⟩

/-- C2: encoding never fails observably: `bincode::serialize` succeeds on every
packet of this fixed-width record type, `to_bytes` returns exactly those bytes
(so the `unwrap_or_default` empty-sequence fallback is never taken), and the
output is a byte sequence of the fixed width determined by the band lengths. -/
theorem c2_encode_total (p : AudioPacket) :
    (∃ bs, bincodeSerialize p = Except.ok bs ∧ p.to_bytes = bs) ∧
    p.to_bytes.length = 29 + 4 * (p.left_bands.length + p.right_bands.length) := by
  refine ⟨⟨encodeBytes p, rfl, rfl⟩, ?_⟩
  show (encodeBytes p).length = _
  simp [encodeBytes, u8Bytes, u32Bytes, u64Bytes, bytesOfF32s_length]
  ring

/-- C9: every heartbeat packet carries zero-filled 64-entry band arrays, the
floor placeholder `-100.0` in both peak fields, zero in both RMS fields, and
has the same fixed wire layout (the same byte length) as any FFT packet. -/
theorem c9_heartbeat_layout (sr ts : Nat) :
    (AudioPacket.new_heartbeat sr ts).packet_type = PACKET_TYPE_HEARTBEAT ∧
    (AudioPacket.new_heartbeat sr ts).left_bands = List.replicate NUM_BANDS f32Zero ∧
    (AudioPacket.new_heartbeat sr ts).right_bands = List.replicate NUM_BANDS f32Zero ∧
    (AudioPacket.new_heartbeat sr ts).left_peak = f32Neg100 ∧
    (AudioPacket.new_heartbeat sr ts).right_peak = f32Neg100 ∧
    (AudioPacket.new_heartbeat sr ts).left_rms = f32Zero ∧
    (AudioPacket.new_heartbeat sr ts).right_rms = f32Zero ∧
    (AudioPacket.new_heartbeat sr ts).to_bytes.length = 541 ∧
    (∀ sr2 ts2 lb rb lp rp lr rr, lb.length = NUM_BANDS → rb.length = NUM_BANDS →
      (AudioPacket.new_fft sr2 ts2 lb rb lp rp lr rr).to_bytes.length =
        (AudioPacket.new_heartbeat sr ts).to_bytes.length) := by
  refine ⟨rfl, rfl, rfl, rfl, rfl, rfl, rfl, ?_, ?_⟩
  · show (encodeBytes _).length = 541
    simp [encodeBytes, u8Bytes, u32Bytes, u64Bytes, bytesOfF32s_length,
      AudioPacket.new_heartbeat, NUM_BANDS]
  · intro sr2 ts2 lb rb lp rp lr rr hl hr
    show (encodeBytes _).length = (encodeBytes _).length
    simp [encodeBytes, u8Bytes, u32Bytes, u64Bytes, bytesOfF32s_length,
      AudioPacket.new_heartbeat, AudioPacket.new_fft, hl, hr, NUM_BANDS]

/-- Closed witness for C9 instantiating the layout comparison at a concrete
FFT packet. -/
theorem c9_heartbeat_layout_witness :
    (AudioPacket.new_fft 44100 7 (List.replicate 64 1) (List.replicate 64 2)
      3 4 5 6).to_bytes.length =
      (AudioPacket.new_heartbeat 48000 0).to_bytes.length :=
  (c9_heartbeat_layout 48000 0).2.2.2.2.2.2.2.2 44100 7 _ _ 3 4 5 6
    (by decide) (by decide)

/-! ## Spectral analyzer model (`src/fft.rs`)

Sample values and intermediate magnitudes are modelled in `ℚ`.  The pieces of
the pipeline implemented by external library code or float transcendentals are
abstracted as parameters (`FftOps`): `fftNorm` stands for the composite of
rustfft's `plan_fft_forward(FFT_SIZE)` + `fft.process` + complex `.norm()`
applied to the windowed buffer; `log10` stands for `f32::log10`; `pow2sixth`
stands for the constant `2.0f32.powf(1.0/6.0)`.  The windowing multiply, band
loop, bin clamping, averaging, the `* 2.0 / FFT_SIZE` normalization and the
final dB clamp are translated directly from `FftProcessor::process`.  The f32
literal `1e-10` is modelled as the exact rational `1/10^10` (its rounding
plays no role in the claims below, which never evaluate `log10`). -/

/-- FFT size for analysis (`FFT_SIZE` in `fft.rs`). -/
def FFT_SIZE : Nat := 4096

/-- Epsilon added before `log10` in `fft.rs` (`1e-10`). -/
def EPSILON : ℚ := 1 / 10 ^ 10

/-- External float operations used by `FftProcessor::process`, abstracted. -/
structure FftOps where
  fftNorm : (Nat → ℚ) → Nat → ℚ
  log10 : ℚ → ℚ
  pow2sixth : ℚ

/-- The precomputed per-instance state of `struct FftProcessor`: the Hann
window table and the logarithmic band center frequencies built in
`FftProcessor::new` (their float-transcendental values are left abstract). -/
structure FftProcessor where
  window : Nat → ℚ
  band_frequencies : Nat → ℚ

/-- Rust `db.clamp(-100.0, 0.0)`: if below the floor return the floor, if
above the ceiling return the ceiling, otherwise the value itself. -/
def clampDb (x : ℚ) : ℚ := if x < -100 then -100 else if 0 < x then 0 else x

/-- The bin range `[low_bin, high_bin)` of one 1/3-octave band, with the
saturating `as usize` casts and the clamping from `fft.rs` lines 93-102. -/
def bandBins (sample_rate pow2sixth center : ℚ) : Nat × Nat :=
  let bin_width := sample_rate / (FFT_SIZE : ℚ)
  let low_freq := center / pow2sixth
  let high_freq := center * pow2sixth
  let low_bin0 := (⌊low_freq / bin_width⌋).toNat
  let high_bin0 := (⌈high_freq / bin_width⌉).toNat
  let low_bin := min (max low_bin0 1) (FFT_SIZE / 2 - 1)
  let high_bin := min (max high_bin0 (low_bin + 1)) (FFT_SIZE / 2)
  (low_bin, high_bin)

/-- Sum of `f` over the half-open index range `[lo, hi)` (the band loop). -/
def sumRange (f : Nat → ℚ) (lo hi : Nat) : ℚ :=
  ((List.range (hi - lo)).map (fun k => f (lo + k))).sum

/-- The magnitude spectrum as a function of bin index: the abstract
FFT-plus-norm applied to the Hann-windowed sample buffer
(`fft.rs` lines 74-86). -/
def bandMags (st : FftProcessor) (ops : FftOps) (samples : List ℚ) : Nat → ℚ :=
  ops.fftNorm (fun i => samples.getD i 0 * st.window i)

/-- One iteration of the band loop of `FftProcessor::process`
(lines 91-124): average the magnitudes over the band's bins, normalize by
`* 2.0 / FFT_SIZE`, convert to dB and clamp. -/
def processBand (st : FftProcessor) (ops : FftOps) (mags : Nat → ℚ)
    (sample_rate : ℚ) (band_idx : Nat) : ℚ :=
  let lohi := bandBins sample_rate ops.pow2sixth (st.band_frequencies band_idx)
  let count := lohi.2 - lohi.1
  if 0 < count then
    let avg := sumRange mags lohi.1 lohi.2 / (count : ℚ)
    let normalized := avg * 2 / (FFT_SIZE : ℚ)
    let db := 20 * ops.log10 (normalized + EPSILON)
    clampDb db
  else -100

/-- `FftProcessor::process`: returns the 64 floor values when fewer than
`FFT_SIZE` samples are supplied, otherwise maps every band through the band
loop. -/
def FftProcessor.process (st : FftProcessor) (ops : FftOps) (samples : List ℚ)
    (sample_rate : ℚ) : List ℚ :=
  if samples.length < FFT_SIZE then List.replicate NUM_BANDS (-100)
  else (List.range NUM_BANDS).map
    (processBand st ops (bandMags st ops samples) sample_rate)

/-- The averaged FFT magnitude of one band as computed inside
`FftProcessor::process` (sum over the band's bins divided by the bin count). -/
def bandAvgAt (st : FftProcessor) (ops : FftOps) (samples : List ℚ)
    (sample_rate : ℚ) (band_idx : Nat) : ℚ :=
  let lohi := bandBins sample_rate ops.pow2sixth (st.band_frequencies band_idx)
  sumRange (bandMags st ops samples) lohi.1 lohi.2 / ((lohi.2 - lohi.1 : Nat) : ℚ)

/-- The dB conversion applied by the code to a band average: scale by
`2/FFT_SIZE`, add epsilon, `20*log10`, clamp. -/
def codeBandDb (log10 : ℚ → ℚ) (avg : ℚ) : ℚ :=
  clampDb (20 * log10 (avg * 2 / (FFT_SIZE : ℚ) + EPSILON))

/-- Modelled from the spec: the spec's claimed dB conversion for a band
average, scaling by the coherent-gain factor `4/N` (Hann window) before
`20*log10(m + ε)` and clamping; this is what C4 asserts the code does. -/
def specScaledBandDb (log10 : ℚ → ℚ) (avg : ℚ) : ℚ :=
  clampDb (20 * log10 (avg * 4 / (FFT_SIZE : ℚ) + EPSILON))

lemma bandBins_fst_lt_snd (sample_rate pow2sixth center : ℚ) :
    (bandBins sample_rate pow2sixth center).1 <
      (bandBins sample_rate pow2sixth center).2 := by
  simp only [bandBins, FFT_SIZE]
  omega

/-- C3: with fewer than `FFT_SIZE` samples, `process` returns the frame of 64
floor values `-100` for every processor state, abstract float ops and sample
rate. -/
theorem c3_short_input_floor (st : FftProcessor) (ops : FftOps)
    (samples : List ℚ) (sample_rate : ℚ) (h : samples.length < FFT_SIZE) :
    st.process ops samples sample_rate = List.replicate NUM_BANDS (-100) := by
  unfold FftProcessor.process
  rw [if_pos h]

/-- Concrete processor state used to instantiate the abstract FFT model. -/
def cSt : FftProcessor := { window := fun _ => 0, band_frequencies := fun _ => 2 }

/-- Concrete abstract-op instantiation: constant unit magnitude spectrum and
an affine stand-in for `log10`. -/
def cOps : FftOps :=
  { fftNorm := fun _ _ => 1, log10 := fun x => -x - 1, pow2sixth := 2 }

/-- Closed witness for C3 at the empty sample slice. -/
theorem c3_short_input_floor_witness :
    ([] : List ℚ).length < FFT_SIZE ∧
      cSt.process cOps [] 48000 = List.replicate NUM_BANDS (-100) :=
  ⟨by decide, c3_short_input_floor cSt cOps [] 48000 (by decide)⟩

lemma process_getD_full (st : FftProcessor) (ops : FftOps)
    (samples : List ℚ) (sample_rate : ℚ) (band_idx : Nat)
    (h1 : FFT_SIZE ≤ samples.length) (h2 : band_idx < NUM_BANDS) :
    (st.process ops samples sample_rate).getD band_idx 0 =
      codeBandDb ops.log10 (bandAvgAt st ops samples sample_rate band_idx) := by
  unfold FftProcessor.process
  rw [if_neg (Nat.not_lt.mpr h1)]
  rw [List.getD_eq_getElem?_getD, List.getElem?_map, List.getElem?_range h2]
  simp only [Option.map_some', Option.getD_some]
  unfold processBand codeBandDb bandAvgAt
  rw [if_pos (Nat.sub_pos_of_lt (bandBins_fst_lt_snd _ _ _))]

/-- C4 (amended): with a full window, each band of `process` is the band's
averaged magnitude scaled by `2/FFT_SIZE` — not the spec's `4/FFT_SIZE` —
before the `20*log10(m + ε)` conversion and the clamp. -/
theorem c4_band_scaled_by_two_over_n (st : FftProcessor) (ops : FftOps)
    (samples : List ℚ) (sample_rate : ℚ) (band_idx : Nat)
    (h1 : FFT_SIZE ≤ samples.length) (h2 : band_idx < NUM_BANDS) :
    (st.process ops samples sample_rate).getD band_idx 0 =
      codeBandDb ops.log10 (bandAvgAt st ops samples sample_rate band_idx) :=
  process_getD_full st ops samples sample_rate band_idx h1 h2

/-- Closed witness for the amended C4 at a concrete full window. -/
theorem c4_band_scaled_witness :
    FFT_SIZE ≤ (List.replicate FFT_SIZE (0 : ℚ)).length ∧ 0 < NUM_BANDS ∧
    (cSt.process cOps (List.replicate FFT_SIZE 0) 4096).getD 0 0 =
      codeBandDb cOps.log10 (bandAvgAt cSt cOps (List.replicate FFT_SIZE 0) 4096 0) :=
  ⟨by simp, by decide,
    c4_band_scaled_by_two_over_n cSt cOps (List.replicate FFT_SIZE 0) 4096 0
      (by simp) (by decide)⟩

/-- Counterexample to C4 as stated: at a concrete full window and concrete
abstract ops the band value computed by `process` differs from the spec's
`4/N`-scaled conversion of the same band average (the code scales by `2/N`). -/
theorem c4_counterexample :
    (cSt.process cOps (List.replicate FFT_SIZE 0) 4096).getD 0 0 ≠
      specScaledBandDb cOps.log10
        (bandAvgAt cSt cOps (List.replicate FFT_SIZE 0) 4096 0) := by
  have hbb : bandBins 4096 cOps.pow2sixth (cSt.band_frequencies 0) = (1, 4) := by
    norm_num [bandBins, FFT_SIZE, cOps, cSt, Int.floor_one]
    decide
  have havg : bandAvgAt cSt cOps (List.replicate FFT_SIZE 0) 4096 0 = 1 := by
    rw [bandAvgAt, hbb]
    norm_num [sumRange, bandMags, cOps, List.range_succ]
  rw [process_getD_full cSt cOps (List.replicate FFT_SIZE 0) 4096 0
    (by simp) (by decide), havg]
  norm_num [codeBandDb, specScaledBandDb, clampDb, cOps, EPSILON, FFT_SIZE]

/-! ## Streaming client: packet lane model (`src/websocket.rs`) -/

/-- Capacity of the bounded crossbeam packet channel
(`bounded::<AudioPacket>(32)`). -/
def LANE_CAPACITY : Nat := 32

/-- The packet hand-off state of `struct WebSocketClient`: whether the
receiver matching the current `packet_sender` is alive (in `new()` the
receiver binding `_packet_receiver` is dropped when `new` returns), the
packets currently buffered in the channel, and whether the background thread
has been spawned (`thread_handle.is_some()`). -/
structure WSClient where
  receiverAlive : Bool
  queue : List AudioPacket
  started : Bool
deriving DecidableEq, Repr

/-- `WebSocketClient::new`: a `bounded(32)` channel whose receiver is dropped
immediately, and no background thread yet. -/
def WSClient.new : WSClient :=
  { receiverAlive := false, queue := [], started := false }

/-- `WebSocketClient::start`: only the first call spawns the thread; it
replaces the lane with a fresh empty channel whose receiver moves to the
background thread. -/
def WSClient.start (c : WSClient) : WSClient :=
  if c.started then c
  else { receiverAlive := true, queue := [], started := true }

/-- `WebSocketClient::send`: `let _ = self.packet_sender.try_send(packet)` —
non-blocking; the packet is enqueued only when the receiver is alive and the
lane is below capacity, otherwise it is silently discarded. -/
def WSClient.send (c : WSClient) (p : AudioPacket) : WSClient :=
  if c.receiverAlive ∧ c.queue.length < LANE_CAPACITY
  then { c with queue := c.queue ++ [p] } else c

/-- Repeated `send` of a list of packets in producer order. -/
def WSClient.sendAll (c : WSClient) (ps : List AudioPacket) : WSClient :=
  ps.foldl WSClient.send c

lemma send_dead (c : WSClient) (p : AudioPacket) (h : c.receiverAlive = false) :
    c.send p = c := by
  simp [WSClient.send, h]

lemma sendAll_dead (ps : List AudioPacket) :
    ∀ (c : WSClient), c.receiverAlive = false → c.sendAll ps = c := by
  induction ps with
  | nil => intro c _; rfl
  | cons p tl ih =>
      intro c h
      show ((c.send p).sendAll tl) = c
      rw [send_dead c p h, ih c h]

lemma sendAll_alive_queue (ps : List AudioPacket) :
    ∀ (q : List AudioPacket) (st : Bool), q.length ≤ LANE_CAPACITY →
      (WSClient.sendAll ⟨true, q, st⟩ ps).queue =
        q ++ ps.take (LANE_CAPACITY - q.length) := by
  induction ps with
  | nil => intro q st _; simp [WSClient.sendAll]
  | cons p tl ih =>
      intro q st hq
      show ((WSClient.send ⟨true, q, st⟩ p).sendAll tl).queue = _
      by_cases h : q.length < LANE_CAPACITY
      · rw [show WSClient.send ⟨true, q, st⟩ p = ⟨true, q ++ [p], st⟩ from by
          simp [WSClient.send, h]]
        rw [ih (q ++ [p]) st (by simp; omega)]
        rw [show LANE_CAPACITY - q.length = (LANE_CAPACITY - (q ++ [p]).length) + 1
          from by simp; omega]
        simp [List.take_succ_cons]
      · rw [show WSClient.send ⟨true, q, st⟩ p = ⟨true, q, st⟩ from by
          simp [WSClient.send, h]]
        rw [ih q st hq]
        rw [show LANE_CAPACITY - q.length = 0 from by omega]
        simp

/-- C10: packets offered before `start()` are silently discarded — `sendAll`
on the freshly constructed client is a no-op because the receiver created in
`new()` is already dropped — and after `start()` replaces the lane, the lane
holds exactly the packets sent after `start()` (up to capacity), never the
pre-start ones. -/
theorem c10_pre_start_sends_discarded (pre post : List AudioPacket) :
    WSClient.new.sendAll pre = WSClient.new ∧
    ((WSClient.new.sendAll pre).start.sendAll post).queue =
      post.take LANE_CAPACITY := by
  have h1 : WSClient.new.sendAll pre = WSClient.new := sendAll_dead pre _ rfl
  refine ⟨h1, ?_⟩
  rw [h1, show WSClient.new.start = ⟨true, [], true⟩ from rfl]
  rw [sendAll_alive_queue post [] true (by simp [LANE_CAPACITY])]
  simp

/-- C5 (amended): offering more packets than the lane's capacity in quick
succession (no consumer draining) leaves the lane holding exactly
`LANE_CAPACITY` packets — but they are the *earliest* `LANE_CAPACITY` packets
offered; `try_send` drops each later packet, and the call never blocks (it is
a total state update returning immediately). -/
theorem c5_lane_backpressure (ps : List AudioPacket)
    (h : LANE_CAPACITY ≤ ps.length) :
    (WSClient.new.start.sendAll ps).queue.length = LANE_CAPACITY ∧
    (WSClient.new.start.sendAll ps).queue = ps.take LANE_CAPACITY := by
  have hq : (WSClient.new.start.sendAll ps).queue = ps.take LANE_CAPACITY := by
    rw [show WSClient.new.start = ⟨true, [], true⟩ from rfl]
    rw [sendAll_alive_queue ps [] true (by simp [LANE_CAPACITY])]
    simp
  exact ⟨by rw [hq]; simp [List.length_take]; omega, hq⟩

/-- Closed witness for the amended C5: 33 distinct packets, the lane keeps
exactly the first 32. -/
theorem c5_lane_backpressure_witness :
    LANE_CAPACITY ≤ ((List.range 33).map
      (fun i => AudioPacket.new_heartbeat 0 i)).length ∧
    (WSClient.new.start.sendAll ((List.range 33).map
      (fun i => AudioPacket.new_heartbeat 0 i))).queue =
      ((List.range 33).map (fun i => AudioPacket.new_heartbeat 0 i)).take
        LANE_CAPACITY :=
  ⟨by simp [LANE_CAPACITY],
    (c5_lane_backpressure _ (by simp [LANE_CAPACITY])).2⟩

/-- Counterexample to C5 as stated: after offering 33 distinct packets to the
started client's lane, the lane holds 32 packets but the most recent packet
(timestamp 32) is not among them — the retained packets are the earliest
ones, not the most recent. -/
theorem c5_counterexample :
    (WSClient.new.start.sendAll ((List.range 33).map
      (fun i => AudioPacket.new_heartbeat 0 i))).queue.length = LANE_CAPACITY ∧
    AudioPacket.new_heartbeat 0 32 ∉
      (WSClient.new.start.sendAll ((List.range 33).map
        (fun i => AudioPacket.new_heartbeat 0 i))).queue := by
  decide

/-! ## Streaming client: reconnection loop model (`src/websocket.rs`)

`WebSocketClient::connection_loop` is modelled as a fuel-indexed trace.
"Time" is the loop iteration index `i`:
* `shutdownAt i` is the value the shutdown flag is observed to hold at the
  check points of iteration `i`;
* `connectOk i` says whether `try_connect` succeeded at iteration `i` (a
  successful connection runs `handle_connection` until disconnect and the
  loop then continues).
Each executed iteration contributes the pair `(i, w)` to the trace, where `w`
is the wait slept before the next retry: on success the delay was just reset
to 100 ms, otherwise it is the accumulated backoff delay; after the sleep the
delay doubles, capped at 5000 ms. -/

/-- Trace of `connection_loop` iterations: `(iteration index, wait slept)`. -/
def connTrace (shutdownAt connectOk : Nat → Bool) :
    Nat → Nat → Nat → List (Nat × Nat)
  | 0, _, _ => []
  | fuel + 1, i, delay =>
    if shutdownAt i then []
    else
      let delay1 := if connectOk i then 100 else delay
      (i, delay1) ::
        connTrace shutdownAt connectOk fuel (i + 1) (min (2 * delay1) 5000)

/-- The sequence of waits slept by the reconnection loop. -/
def connWaits (shutdownAt connectOk : Nat → Bool) (fuel i delay : Nat) :
    List Nat :=
  (connTrace shutdownAt connectOk fuel i delay).map Prod.snd

lemma cap_double (d j : Nat) :
    min (min (2 * d) 5000 * 2 ^ j) 5000 = min (d * 2 ^ (j + 1)) 5000 := by
  have hx1 : 1 ≤ 2 ^ j := Nat.one_le_two_pow
  rcases Nat.le_total (2 * d) 5000 with h | h
  · rw [Nat.min_eq_left h, pow_succ, show d * (2 ^ j * 2) = 2 * d * 2 ^ j from by
      ring]
  · rw [Nat.min_eq_right h, pow_succ]
    have f1 : 5000 ≤ 5000 * 2 ^ j := by
      calc 5000 = 5000 * 1 := by ring
      _ ≤ 5000 * 2 ^ j := Nat.mul_le_mul_left 5000 hx1
    have f2 : 5000 ≤ d * (2 ^ j * 2) := by
      calc 5000 ≤ 2 * d := h
      _ = 2 * d * 1 := by ring
      _ ≤ 2 * d * 2 ^ j := Nat.mul_le_mul_left (2 * d) hx1
      _ = d * (2 ^ j * 2) := by ring
    omega

lemma connWaits_all_fail (k : Nat) :
    ∀ (i d : Nat), d ≤ 5000 →
      connWaits (fun _ => false) (fun _ => false) k i d =
        (List.range k).map (fun j => min (d * 2 ^ j) 5000) := by
  induction k with
  | zero => intro i d _; rfl
  | succ n ih =>
      intro i d hd
      have hstep : connWaits (fun _ => false) (fun _ => false) (n + 1) i d =
          d :: connWaits (fun _ => false) (fun _ => false) n (i + 1)
            (min (2 * d) 5000) := rfl
      rw [hstep, ih (i + 1) (min (2 * d) 5000) (Nat.min_le_right _ _),
        List.range_succ_eq_map, List.map_cons, List.map_map]
      congr 1
      · symm
        rw [pow_zero, Nat.mul_one]
        exact Nat.min_eq_left hd
      · exact List.map_congr_left (fun j _ => cap_double d j)

/-- C6: the reconnection backoff starts at 100 ms and doubles after each
consecutive failed connect, capped at 5000 ms — in particular three
consecutive failures from a fresh loop sleep 100, 200, 400 ms — and at any
iteration whose connect succeeds, the wait before the next retry is reset to
100 ms regardless of the accumulated delay. -/
theorem c6_backoff (k : Nat) :
    connWaits (fun _ => false) (fun _ => false) 3 0 100 = [100, 200, 400] ∧
    (∀ i d, d ≤ 5000 →
      connWaits (fun _ => false) (fun _ => false) k i d =
        (List.range k).map (fun j => min (d * 2 ^ j) 5000)) ∧
    (∀ (sd ok : Nat → Bool) (fuel i d : Nat), sd i = false → ok i = true →
      (connTrace sd ok (fuel + 1) i d).head? = some (i, 100)) := by
  refine ⟨by decide, fun i d hd => connWaits_all_fail k i d hd, ?_⟩
  intro sd ok fuel i d h1 h2
  show (if sd i then [] else _).head? = _
  rw [h1]
  simp [h2]

/-- Closed witness for C6: seven consecutive failures give the capped
doubling sequence, and a successful connect at a concrete iteration resets
the next wait to 100 ms. -/
theorem c6_backoff_witness :
    connWaits (fun _ => false) (fun _ => false) 7 0 100 =
      (List.range 7).map (fun j => min (100 * 2 ^ j) 5000) ∧
    (connTrace (fun _ => false) (fun _ => true) 1 0 4000).head? =
      some (0, 100) :=
  ⟨(c6_backoff 7).2.1 0 100 (by omega),
    (c6_backoff 0).2.2 (fun _ => false) (fun _ => true) 0 0 4000 rfl rfl⟩

/-- The shutdown flag after `Drop for WebSocketClient` stores `true` at time
`t`: from iteration `t` on, every observation of the flag yields `true`. -/
def shutdownFrom (sd : Nat → Bool) (t : Nat) : Nat → Bool :=
  fun j => sd j || decide (t ≤ j)

/-- C7: once the shutdown flag is set (from iteration `t` on), the
reconnection loop executes no iteration with index `≥ t`: it observes the
flag at its next check point and the trace ends, so the background thread
terminates and the owner's `join` in `drop` returns; in particular a loop
arriving at any check point at or after `t` produces an empty trace. -/
theorem c7_shutdown_terminates (sd ok : Nat → Bool) (fuel i d t : Nat) :
    (∀ e ∈ connTrace (shutdownFrom sd t) ok fuel i d, e.1 < t) ∧
    (t ≤ i → connTrace (shutdownFrom sd t) ok fuel i d = []) := by
  induction fuel generalizing i d with
  | zero => exact ⟨fun e he => absurd he (by simp [connTrace]), fun _ => rfl⟩
  | succ n ih =>
      constructor
      · intro e he
        by_cases h : shutdownFrom sd t i = true
        · rw [show connTrace (shutdownFrom sd t) ok (n + 1) i d = [] from by
            show (if shutdownFrom sd t i then _ else _) = _
            rw [h]; rfl] at he
          exact absurd he (by simp)
        · have hlt : i < t := by
            have : (decide (t ≤ i)) = false := by
              simp only [shutdownFrom, Bool.or_eq_true, decide_eq_true_eq] at h
              simp only [decide_eq_false_iff_not]
              exact fun hc => h (Or.inr hc)
            simpa using this
          rw [show connTrace (shutdownFrom sd t) ok (n + 1) i d =
              (i, if ok i then 100 else d) ::
                connTrace (shutdownFrom sd t) ok n (i + 1)
                  (min (2 * (if ok i then 100 else d)) 5000) from by
            show (if shutdownFrom sd t i then _ else _) = _
            rw [Bool.of_not_eq_true h]; rfl] at he
          rcases List.mem_cons.mp he with rfl | htl
          · exact hlt
          · exact (ih _ _).1 e htl
      · intro ht
        have h : shutdownFrom sd t i = true := by
          simp [shutdownFrom, ht]
        show (if shutdownFrom sd t i then _ else _) = _
        rw [h]; rfl

/-- Closed witness for C7: with the flag set from iteration 2, the executed
iteration 0 is before the flag; with the flag set from iteration 0, the
trace is empty. -/
theorem c7_shutdown_terminates_witness :
    ((0, 100) ∈ connTrace (shutdownFrom (fun _ => false) 2)
        (fun _ => false) 5 0 100 ∧ (0 : Nat) < 2) ∧
    connTrace (shutdownFrom (fun _ => false) 0) (fun _ => false) 5 0 100 = [] :=
  ⟨⟨by decide,
    (c7_shutdown_terminates (fun _ => false) (fun _ => false) 5 0 100 2).1
      (0, 100) (by decide)⟩,
    (c7_shutdown_terminates (fun _ => false) (fun _ => false) 5 0 100 0).2
      (by decide)⟩

/-! ## Capture pipeline model (`src/lib.rs`) -/

/-- One per-sample step of `HardwaveBridge::process` (lib.rs lines 197-205):
push the left/right samples onto the channel buffers, then if the left buffer
exceeds `FFT_SIZE`, remove the oldest element of both.  (`Vec::remove(0)` is
modelled by `List.drop 1`; on the right buffer it would panic if that buffer
were empty, which the equal-length invariant proved below rules out.) -/
def pushSample (buffers : List ℚ × List ℚ) (l r : ℚ) : List ℚ × List ℚ :=
  if FFT_SIZE < (buffers.1 ++ [l]).length
  then ((buffers.1 ++ [l]).drop 1, (buffers.2 ++ [r]).drop 1)
  else (buffers.1 ++ [l], buffers.2 ++ [r])

/-- The per-sample loop of `HardwaveBridge::process` over one host block of
(left, right) sample pairs. -/
def pushBlock (buffers : List ℚ × List ℚ) (samples : List (ℚ × ℚ)) :
    List ℚ × List ℚ :=
  samples.foldl (fun st s => pushSample st s.1 s.2) buffers

lemma pushSample_inv (buffers : List ℚ × List ℚ) (l r : ℚ)
    (heq : buffers.1.length = buffers.2.length)
    (hle : buffers.1.length ≤ FFT_SIZE) :
    (pushSample buffers l r).1.length = (pushSample buffers l r).2.length ∧
    (pushSample buffers l r).1.length ≤ FFT_SIZE := by
  obtain ⟨bl, br⟩ := buffers
  simp only at heq hle
  by_cases h : FFT_SIZE < (bl ++ [l]).length
  · rw [show pushSample (bl, br) l r =
        ((bl ++ [l]).drop 1, (br ++ [r]).drop 1) from by
      unfold pushSample; rw [if_pos h]]
    simp only [List.length_drop, List.length_append, List.length_cons,
      List.length_nil]
    simp only [List.length_append, List.length_cons, List.length_nil] at h
    omega
  · rw [show pushSample (bl, br) l r = (bl ++ [l], br ++ [r]) from by
      unfold pushSample; rw [if_neg h]]
    simp only [List.length_append, List.length_cons, List.length_nil]
    simp only [List.length_append, List.length_cons, List.length_nil] at h
    omega

lemma pushBlock_inv (samples : List (ℚ × ℚ)) :
    ∀ (buffers : List ℚ × List ℚ),
      buffers.1.length = buffers.2.length → buffers.1.length ≤ FFT_SIZE →
      (pushBlock buffers samples).1.length =
        (pushBlock buffers samples).2.length ∧
      (pushBlock buffers samples).1.length ≤ FFT_SIZE := by
  induction samples with
  | nil => intro buffers heq hle; exact ⟨heq, hle⟩
  | cons s tl ih =>
      intro buffers heq hle
      have hstep := pushSample_inv buffers s.1 s.2 heq hle
      exact ih (pushSample buffers s.1 s.2) hstep.1 hstep.2

/-- C8: across any sequence of per-sample steps the two channel buffers keep
equal lengths and never exceed `FFT_SIZE`; and once both buffers are full,
each inserted pair evicts the oldest sample of each buffer (sliding
window). -/
theorem c8_sliding_window (samples : List (ℚ × ℚ))
    (buffers : List ℚ × List ℚ)
    (heq : buffers.1.length = buffers.2.length)
    (hle : buffers.1.length ≤ FFT_SIZE) :
    ((pushBlock buffers samples).1.length =
        (pushBlock buffers samples).2.length ∧
      (pushBlock buffers samples).1.length ≤ FFT_SIZE) ∧
    (∀ (bl br : List ℚ) (l r : ℚ), bl.length = FFT_SIZE →
      br.length = FFT_SIZE →
      pushSample (bl, br) l r = (bl.drop 1 ++ [l], br.drop 1 ++ [r])) := by
  refine ⟨pushBlock_inv samples buffers heq hle, ?_⟩
  intro bl br l r hbl hbr
  have h : FFT_SIZE < (bl ++ [l]).length := by
    simp [List.length_append, hbl]
  rw [show pushSample (bl, br) l r =
      ((bl ++ [l]).drop 1, (br ++ [r]).drop 1) from by
    unfold pushSample; rw [if_pos h]]
  have hN : FFT_SIZE = 4096 := rfl
  have hbl1 : 1 ≤ bl.length := by omega
  have hbr1 : 1 ≤ br.length := by omega
  rw [List.drop_append_of_le_length hbl1, List.drop_append_of_le_length hbr1]

/-- Closed witness for C8 at concrete buffers: the invariant after one pushed
pair from empty buffers, and the eviction equation at full buffers. -/
theorem c8_sliding_window_witness :
    (((pushBlock ([], []) [(1, 2)]).1.length =
        (pushBlock ([], []) [(1, 2)]).2.length ∧
      (pushBlock ([], []) [(1, 2)]).1.length ≤ FFT_SIZE) ∧
    (∀ (bl br : List ℚ) (l r : ℚ), bl.length = FFT_SIZE →
      br.length = FFT_SIZE →
      pushSample (bl, br) l r = (bl.drop 1 ++ [l], br.drop 1 ++ [r]))) ∧
    pushSample (List.replicate FFT_SIZE 0, List.replicate FFT_SIZE 0) 5 6 =
      ((List.replicate FFT_SIZE (0 : ℚ)).drop 1 ++ [5],
        (List.replicate FFT_SIZE (0 : ℚ)).drop 1 ++ [6]) := by
  have h := c8_sliding_window [(1, 2)] ([], []) rfl (by simp [FFT_SIZE])
  exact ⟨h, h.2 _ _ 5 6 (by simp) (by simp)⟩

end Hardwave
